import Mathlib

/-!
Shallow embedding of the `arangodb-events-rs` change-data-capture consumer
(`src/trigger.rs`, `src/events.rs`, `src/api.rs`, `src/utils.rs`).

The HTTP transport is abstracted: a `listen` cycle receives the server's
response (status, `X-Arango-Replication-Lastincluded` header, NDJSON body
lines) as a value.  Machine strings are Lean `String`s; Rust's byte indices
from `str::find` coincide with character indices on the ASCII log lines the
protocol produces, so indices are modelled as character counts.  The
`serde_json` deserialization of a document-operation record is abstracted as
a parameter `pd : String → Option DocumentOperation`; every other piece of
parsing (`"type"` code extraction, `tid` extraction) is translated directly
from `utils.rs` / `trigger.rs`.  The `data` field of a document operation is
arbitrary JSON never inspected by the core, modelled opaquely as its text.
-/

namespace AE

/-- Error kinds, after `errors.rs` (`Kind::Io(Serialize)`, `Kind::Io(Other)`,
`Kind::ArangoDB(HttpError status)`, `Kind::Http`). -/
inductive PError where
  | serialize : PError
  | parseInt : PError
  | api : Nat → PError
  | http : PError
deriving DecidableEq

/-- All log types supported for the ArangoDB replication API (`api.rs`). -/
inductive LogType where
  | CreateDatabase
  | DropDatabase
  | CreateCollection
  | DropCollection
  | RenameCollection
  | ChangeCollection
  | TruncateCollection
  | CreateIndex
  | DropIndex
  | CreateView
  | DropView
  | ChangeView
  | StartTransaction
  | CommitTransaction
  | AbortTransaction
  | InsertOrReplaceDocument
  | RemoveDocument
deriving DecidableEq

/-- `impl TryFrom<u16> for LogType` (`api.rs` lines 67-92); `none` is the
`Err(())` arm for codes outside the known set. -/
def tryFromU16 (v : Nat) : Option LogType :=
  match v with
  | 1100 => some .CreateDatabase
  | 1101 => some .DropDatabase
  | 2000 => some .CreateCollection
  | 2001 => some .DropCollection
  | 2002 => some .RenameCollection
  | 2003 => some .ChangeCollection
  | 2004 => some .TruncateCollection
  | 2100 => some .CreateIndex
  | 2101 => some .DropIndex
  | 2110 => some .CreateView
  | 2111 => some .DropView
  | 2112 => some .ChangeView
  | 2200 => some .StartTransaction
  | 2201 => some .CommitTransaction
  | 2202 => some .AbortTransaction
  | 2300 => some .InsertOrReplaceDocument
  | 2302 => some .RemoveDocument
  | _ => none

/-- `DocumentOperation { cname, data }` (`api.rs`).  `data` is arbitrary JSON
that the core never inspects; it is kept as its raw text. -/
structure DocumentOperation where
  collection : String
  data : String
deriving DecidableEq

/-- `enum TransactionOperation` (`trigger.rs` lines 547-550). -/
inductive TransactionOperation where
  | InsertOrReplaceDocument : DocumentOperation → TransactionOperation
  | RemoveDocument : DocumentOperation → TransactionOperation
deriving DecidableEq

/-- `struct Transaction { operations: Vec<TransactionOperation> }`
(`trigger.rs` lines 532-534). -/
structure Transaction where
  operations : List TransactionOperation
deriving DecidableEq

/-- `Transaction::empty` (`trigger.rs`). -/
def Transaction.empty : Transaction := ⟨[]⟩

/-- `utils::get_string_between`: skip `start` characters, take `count`. -/
def get_string_between (str : String) (start count : Nat) : String :=
  String.mk ((str.data.drop start).take count)

/-- `utils::get_string_until`: skip `start` characters, take until `char`. -/
def get_string_until (str : String) (start : Nat) (char : Char) : String :=
  String.mk ((str.data.drop start).takeWhile (fun c => c ≠ char))

/-- Index of the first occurrence of `search` in `line`, as in `str::find`
(byte and character indices agree on the ASCII protocol lines). -/
def findSub : List Char → List Char → Option Nat
  | [], search => if search = [] then some 0 else none
  | c :: rest, search =>
    if search.isPrefixOf (c :: rest) then some 0
    else (findSub rest search).map (fun i => i + 1)

/-- The local helper `find_idx` inside `Trigger::process_line`: index right
after the first occurrence of `search`, or a `Serialize` error. -/
def find_idx (line search : String) : Except PError Nat :=
  match findSub line.data search.data with
  | some i => .ok (i + search.length)
  | none => .error .serialize

/-- Rust `str::parse::<u16>()`: optional leading `+` sign, decimal digits
only, must be nonempty and fit in 16 bits (checked arithmetic). -/
def parseU16 (s : String) : Option Nat :=
  let t : List Char :=
    match s.data with
    | c :: rest => if c = '+' then rest else c :: rest
    | [] => []
  if t = [] then none
  else if t.all (fun c => c.isDigit) then
    let n := t.foldl (fun acc c => acc * 10 + (c.toNat - 48)) 0
    if n ≤ 65535 then some n else none
  else none

/-- The local helper `get_tid` inside `Trigger::process_line`: the substring
between the literal `"tid":"` and the next quote (the `?` operator on
`find_idx` propagates its error). -/
def get_tid (line : String) : Except PError String :=
  match find_idx line "\"tid\":\"" with
  | .ok tid_idx => .ok (get_string_until line tid_idx '"')
  | .error e => .error e

/-! ### Association-list model of `std::collections::HashMap`

Only the map interface (`get`, `insert`, `remove`) is observed by the code;
entry order is irrelevant.  `mapSet` replaces in place or appends, matching
`HashMap::insert`'s overwrite semantics; `mapDel` is `HashMap::remove`. -/

def mapGet {α β : Type} [DecidableEq α] : List (α × β) → α → Option β
  | [], _ => none
  | (k, v) :: rest, key => if k = key then some v else mapGet rest key

def mapSet {α β : Type} [DecidableEq α] : List (α × β) → α → β → List (α × β)
  | [], key, val => [(key, val)]
  | (k, v) :: rest, key, val =>
    if k = key then (key, val) :: rest else (k, v) :: mapSet rest key val

def mapDel {α β : Type} [DecidableEq α] : List (α × β) → α → List (α × β)
  | [], _ => []
  | (k, v) :: rest, key => if k = key then rest else (k, v) :: mapDel rest key

/-- Keys of an association list are pairwise distinct (true of every map the
code builds, since it only uses `insert` and `remove` starting from empty). -/
def keysND {α β : Type} (m : List (α × β)) : Prop :=
  (m.map Prod.fst).Nodup

/-! ### Subscriptions (`events.rs`) -/

/-- `enum HandlerEvent` (`events.rs`). -/
inductive HandlerEvent where
  | InsertOrReplace
  | Remove
deriving DecidableEq

/-- `struct Subscription` (`events.rs` lines 187-194).  The handler callback
`H::dispatch` either runs `H::call` (when the stored type-erased context
downcasts to `H::Context`) or returns `None`; that runtime outcome is the
`downcastOk` flag, and the handler itself is identified by its type name. -/
structure Subscription where
  name : String
  downcastOk : Bool
deriving DecidableEq

/-- `struct SubscriptionMap { map: HashMap<HandlerEvent, Vec<Subscription>> }`. -/
def SubscriptionMap := List (HandlerEvent × List Subscription)
deriving DecidableEq

/-- `SubscriptionMap::empty`. -/
def SubscriptionMap.empty : SubscriptionMap := []

/-- `SubscriptionMap::insert` (`events.rs` lines 220-232): push onto the
event's vector, or create a one-element vector. -/
def SubscriptionMap.insert (m : SubscriptionMap) (ev : HandlerEvent)
    (s : Subscription) : SubscriptionMap :=
  match mapGet m ev with
  | some v => mapSet m ev (v ++ [s])
  | none => mapSet m ev [s]

/-- `SubscriptionMap::get`. -/
def SubscriptionMap.get (m : SubscriptionMap) (ev : HandlerEvent) :
    Option (List Subscription) :=
  mapGet m ev

/-- `struct SubscriptionManager` (`events.rs` lines 249-252). -/
structure SubscriptionManager where
  collection_subscriptions : List (String × SubscriptionMap)
  subscriptions : SubscriptionMap
deriving DecidableEq

/-- `SubscriptionManager::new`. -/
def SubscriptionManager.new : SubscriptionManager := ⟨[], SubscriptionMap.empty⟩

/-- `SubscriptionManager::insert`: register a global subscription. -/
def SubscriptionManager.insert (mgr : SubscriptionManager) (ev : HandlerEvent)
    (s : Subscription) : SubscriptionManager :=
  { mgr with subscriptions := mgr.subscriptions.insert ev s }

/-- `SubscriptionManager::insert_to` (`events.rs` lines 288-305): register a
collection-scoped subscription, creating the collection's map if absent. -/
def SubscriptionManager.insert_to (mgr : SubscriptionManager)
    (ev : HandlerEvent) (collection : String) (s : Subscription) :
    SubscriptionManager :=
  match mapGet mgr.collection_subscriptions collection with
  | some subs =>
    let cs := mapSet mgr.collection_subscriptions collection (subs.insert ev s)
    { mgr with collection_subscriptions := cs }
  | none =>
    let m := SubscriptionMap.empty.insert ev s
    let cs := mapSet mgr.collection_subscriptions collection m
    { mgr with collection_subscriptions := cs }

/-- The inner `dispatch_event` of `SubscriptionManager::call` (`events.rs`
lines 324-337): fire each subscription of the event in vector order; a
subscription whose context fails to downcast only logs a warning.  The
result is the ordered list of handler invocations (by handler name). -/
def dispatchEvent (ev : HandlerEvent) (map : SubscriptionMap) : List String :=
  match map.get ev with
  | some subs => subs.filterMap (fun s => if s.downcastOk then some s.name else none)
  | none => []

/-- `SubscriptionManager::call` (`events.rs` lines 318-348): global
subscriptions first, then the subscriptions of the matching collection. -/
def SubscriptionManager.call (mgr : SubscriptionManager) (ev : HandlerEvent)
    (collection : Option String) : List String :=
  dispatchEvent ev mgr.subscriptions ++
    match collection with
    | some col =>
      match mapGet mgr.collection_subscriptions col with
      | some map => dispatchEvent ev map
      | none => []
    | none => []

/-! ### The Trigger (`trigger.rs`) -/

/-- `struct TriggerAuthentication` (`trigger.rs`). -/
structure TriggerAuthentication where
  user : String
  password : String
deriving DecidableEq

/-- `struct Trigger` (`trigger.rs` lines 47-54). -/
structure TriggerState where
  host : String
  database : String
  auth : Option TriggerAuthentication
  last_log_tick : String
  transactions : List (String × Transaction)
  subscriptions : SubscriptionManager
deriving DecidableEq

/-- `Trigger::new` (`trigger.rs` lines 113-122). -/
def Trigger.new (host database : String) : TriggerState :=
  { host := host
    database := database
    auth := none
    last_log_tick := "0"
    transactions := []
    subscriptions := SubscriptionManager.new }

/-- `Trigger::new_auth` (`trigger.rs` lines 146-150). -/
def Trigger.new_auth (host database : String) (auth : TriggerAuthentication) :
    TriggerState :=
  { Trigger.new host database with auth := some auth }

/-- `Trigger::get_uri` (`trigger.rs` lines 153-157), the formatted URI string
(the `parse::<Uri>` validity check is abstracted away). -/
def Trigger.get_uri (st : TriggerState) (endpoint : String) : String :=
  st.host ++ "/_db/" ++ st.database ++ endpoint

/-- The URI requested by `Trigger::listen` (`trigger.rs` lines 256-262). -/
def Trigger.listen_uri (st : TriggerState) : String :=
  Trigger.get_uri st ("/_api/replication/logger-follow?from=" ++ st.last_log_tick)

/-- The local `create_operation` of `Trigger::process_line` (lines 341-354):
full JSON deserialization of the line into a `DocumentOperation`, wrapped
according to the log type; `serde_json` is the abstract parameter `pd`. -/
def create_operation (pd : String → Option DocumentOperation) (line : String)
    (log_type : LogType) : Except PError TransactionOperation :=
  match pd line with
  | some doc =>
    .ok (if log_type = LogType.RemoveDocument
      then TransactionOperation.RemoveDocument doc
      else TransactionOperation.InsertOrReplaceDocument doc)
  | none => .error .serialize

/-- The `RemoveDocument | InsertOrReplaceDocument` arm of
`Trigger::process_line` (`trigger.rs` lines 338-370): `tid == "0"`
dispatches immediately; a known transaction buffers the operation; an
unknown transaction drops the record silently (the line's JSON body is then
never even deserialized, since `create_operation` only runs inside the
`if let Some(t)` branch). -/
def processDocOp (pd : String → Option DocumentOperation) (st : TriggerState)
    (line : String) (log_type : LogType) :
    Except PError (TriggerState × List TransactionOperation) :=
  match get_tid line with
  | .error e => .error e
  | .ok tid =>
    if tid = "0" then
      match create_operation pd line log_type with
      | .error e => .error e
      | .ok single_op => .ok (st, [single_op])
    else
      match mapGet st.transactions tid with
      | some t =>
        match create_operation pd line log_type with
        | .error e => .error e
        | .ok op =>
          let tx := mapSet st.transactions tid ⟨t.operations ++ [op]⟩
          .ok ({ st with transactions := tx }, [])
      | none => .ok (st, [])

/-- `Trigger::process_line` (`trigger.rs` lines 305-390).  Returns the state
after the line together with the ordered list of `execute_operation` calls
the line produced (each of which fans out to handlers, see
`executeOperation`).  Rust's `?` operator is written as explicit error
propagation. -/
def process_line (pd : String → Option DocumentOperation) (st : TriggerState)
    (line : String) : Except PError (TriggerState × List TransactionOperation) :=
  match find_idx line "\"type\":" with
  | .error e => .error e
  | .ok type_idx =>
    match parseU16 (get_string_between line type_idx 4) with
    | none => .error PError.parseInt
    | some code =>
      match tryFromU16 code with
      | none => .ok (st, [])
      | some log_type =>
        match log_type with
        | .StartTransaction =>
          match get_tid line with
          | .error e => .error e
          | .ok tid =>
            let tx := mapSet st.transactions tid Transaction.empty
            .ok ({ st with transactions := tx }, [])
        | .RemoveDocument => processDocOp pd st line LogType.RemoveDocument
        | .InsertOrReplaceDocument =>
          processDocOp pd st line LogType.InsertOrReplaceDocument
        | .CommitTransaction =>
          match get_tid line with
          | .error e => .error e
          | .ok tid =>
            match mapGet st.transactions tid with
            | some t => .ok (st, t.operations)
            | none => .ok (st, [])
        | .AbortTransaction =>
          match get_tid line with
          | .error e => .error e
          | .ok tid => .ok ({ st with transactions := mapDel st.transactions tid }, [])
        | _ => .ok (st, [])

/-- The body-consumption loop of `Trigger::listen` (lines 293-295): process
lines until the first error; the state reached and the operations dispatched
so far are kept (in Rust the mutations to `self` before a `?` persist). -/
def processLines (pd : String → Option DocumentOperation) :
    TriggerState → List String →
    TriggerState × List TransactionOperation × Option PError
  | st, [] => (st, [], none)
  | st, line :: rest =>
    match process_line pd st line with
    | .ok (st1, out1) =>
      let r := processLines pd st1 rest
      (r.1, out1 ++ r.2.1, r.2.2)
    | .error e => (st, [], some e)

/-- The HTTP response a `listen` cycle receives: status code, optional
`X-Arango-Replication-Lastincluded` header, NDJSON body lines. -/
structure HttpResponse where
  status : Nat
  lastIncluded : Option String
  body : List String
deriving DecidableEq

/-- `Trigger::listen` (`trigger.rs` lines 251-302), given the server's
response.  Result: state of the trigger after the call, the ordered list of
dispatched operations, whether the 500 ms idle sleep ran, and the error if
the call failed. -/
def listen (pd : String → Option DocumentOperation) (st : TriggerState)
    (resp : HttpResponse) :
    TriggerState × List TransactionOperation × Bool × Option PError :=
  let current_tick := st.last_log_tick
  if resp.status = 200 ∨ resp.status = 204 then
    match resp.lastIncluded with
    | some v =>
      if v = "0" then
        (st, [], true, none)
      else
        let st1 := { st with last_log_tick := v }
        if v = current_tick then (st1, [], false, none)
        else
          let r := processLines pd st1 resp.body
          (r.1, r.2.1, false, r.2.2)
    | none =>
      ({ st with last_log_tick := current_tick }, [], false, none)
  else (st, [], false, some (PError.api resp.status))

/-- `Trigger::execute_operation` (`trigger.rs` lines 393-410): fan one
dispatched operation out to the subscriptions. -/
def executeOperation (mgr : SubscriptionManager) (op : TransactionOperation) :
    List String :=
  match op with
  | .InsertOrReplaceDocument doc =>
    mgr.call HandlerEvent.InsertOrReplace (some doc.collection)
  | .RemoveDocument doc =>
    mgr.call HandlerEvent.Remove (some doc.collection)

/-- The handler calls produced by a sequence of dispatched operations. -/
def handlerCalls (mgr : SubscriptionManager)
    (ops : List TransactionOperation) : List String :=
  (ops.map (executeOperation mgr)).flatten

/-- A sequence of `listen` body-processing cycles against one trigger
instance: the `transactions` buffer and all other state persist from one
cycle to the next; processing stops at the first failed cycle. -/
def runCycles (pd : String → Option DocumentOperation) :
    TriggerState → List (List String) →
    TriggerState × List TransactionOperation × Option PError
  | st, [] => (st, [], none)
  | st, b :: bs =>
    let r := processLines pd st b
    match r.2.2 with
    | none =>
      let r2 := runCycles pd r.1 bs
      (r2.1, r.2.1 ++ r2.2.1, r2.2.2)
    | some _ => r

/-! ### Line classification (read off the same parsing pipeline) -/

/-- The log type a line's `"type":` field parses to, when it does. -/
def lineType (line : String) : Option LogType :=
  match find_idx line "\"type\":" with
  | .ok idx => (parseU16 (get_string_between line idx 4)).bind tryFromU16
  | .error _ => none

/-- The line is a `CommitTransaction` record whose tid parses to `t`. -/
def commitsFor (line t : String) : Bool :=
  match lineType line, get_tid line with
  | some LogType.CommitTransaction, .ok u => u == t
  | _, _ => false

/-- The line is an `AbortTransaction` record whose tid parses to `t`. -/
def abortsFor (line t : String) : Bool :=
  match lineType line, get_tid line with
  | some LogType.AbortTransaction, .ok u => u == t
  | _, _ => false

/-- The line is a record belonging to transaction `t`: one of the
tid-bearing record kinds, with tid parsing to `t`. -/
def recordFor (t line : String) : Bool :=
  match lineType line, get_tid line with
  | some lt, .ok u =>
    match lt with
    | .StartTransaction | .InsertOrReplaceDocument | .RemoveDocument
    | .CommitTransaction | .AbortTransaction => u == t
    | _ => false
  | _, _ => false

/-- The record kinds for which `process_line` reads the `tid` field. -/
def tidKind : LogType → Bool
  | .StartTransaction | .InsertOrReplaceDocument | .RemoveDocument
  | .CommitTransaction | .AbortTransaction => true
  | _ => false

/-- The state with transaction `t` dropped from the buffer (what the spec
says a commit or abort should leave behind). -/
def delT (t : String) (s : TriggerState) : TriggerState :=
  { s with transactions := mapDel s.transactions t }

/-! ### Registration actions (to state dispatch order, `events.rs`) -/

/-- One registration against the manager: `Trigger::subscribe` (global) or
`Trigger::subscribe_to` (collection-scoped). -/
inductive Reg where
  | rglobal (ev : HandlerEvent) (s : Subscription)
  | rscoped (ev : HandlerEvent) (col : String) (s : Subscription)

/-- Apply one registration. -/
def applyReg (mgr : SubscriptionManager) : Reg → SubscriptionManager
  | .rglobal ev s => mgr.insert ev s
  | .rscoped ev col s => mgr.insert_to ev col s

/-- The manager obtained from a registration sequence. -/
def applyRegs (regs : List Reg) : SubscriptionManager :=
  regs.foldl applyReg SubscriptionManager.new

/-- The registrations that are global subscriptions for `ev`. -/
def globalMatch (ev : HandlerEvent) : Reg → Option Subscription
  | .rglobal e s => if e = ev then some s else none
  | .rscoped _ _ _ => none

/-- The registrations scoped to collection `col` for `ev`. -/
def scopedMatch (ev : HandlerEvent) (col : String) : Reg → Option Subscription
  | .rglobal _ _ => none
  | .rscoped e c s => if e = ev ∧ c = col then some s else none

/-- The handlers a subscription vector invokes, in order; a subscription
whose context fails to downcast is skipped (with a warning). -/
def invoked (subs : List Subscription) : List String :=
  subs.filterMap (fun s => if s.downcastOk then some s.name else none)

/-- The vector stored for an event (empty when absent). -/
def getL (m : SubscriptionMap) (ev : HandlerEvent) : List Subscription :=
  (mapGet m ev).getD []

/-- Global subscriptions of the manager for an event. -/
def gGet (mgr : SubscriptionManager) (ev : HandlerEvent) : List Subscription :=
  getL mgr.subscriptions ev

/-- Collection-scoped subscriptions of the manager for an event. -/
def cGet (mgr : SubscriptionManager) (col : String) (ev : HandlerEvent) :
    List Subscription :=
  match mapGet mgr.collection_subscriptions col with
  | some m => getL m ev
  | none => []

/-! ### Concrete sample data (used by witnesses and counterexamples) -/

/-- A concrete stand-in for `serde_json::from_str::<DocumentOperation>`:
every line deserializes, with collection `"c"` and the line as payload. -/
def pdC : String → Option DocumentOperation := fun l => some ⟨"c", l⟩

def lineStart5 : String := "\x7b\"type\":2200,\"tid\":\"5\"\x7d"

def lineIns5 : String := "\x7b\"type\":2300,\"tid\":\"5\",\"cname\":\"c\",\"data\":1\x7d"

def lineCommit5 : String := "\x7b\"type\":2201,\"tid\":\"5\"\x7d"

def lineAbort5 : String := "\x7b\"type\":2202,\"tid\":\"5\"\x7d"

def lineIns0 : String := "\x7b\"type\":2300,\"tid\":\"0\",\"cname\":\"c\",\"data\":2\x7d"

def lineUnknown : String := "\x7b\"type\":9999,\"tid\":\"1\"\x7d"

def lineJunk : String := "junk"

def st0 : TriggerState := Trigger.new "http://localhost:8529" "db"

def docA : DocumentOperation := ⟨"c", "payload"⟩

def opA : TransactionOperation := TransactionOperation.InsertOrReplaceDocument docA

/-- A trigger state holding an open transaction `"5"` with one buffered
operation. -/
def stB5 : TriggerState := { st0 with transactions := [("5", ⟨[opA]⟩)] }

/-- A trigger state whose cursor is `"100"`. -/
def st100 : TriggerState := { st0 with last_log_tick := "100" }

def respIdle0 : HttpResponse := ⟨200, some "0", []⟩

def respNoHdr : HttpResponse := ⟨200, none, [lineIns0]⟩

def resp500 : HttpResponse := ⟨500, some "7", []⟩

/-- A response whose body fails to parse (no `"type":` literal). -/
def respBad : HttpResponse := ⟨200, some "200", [lineJunk]⟩

/-! ### Association-list lemmas -/

theorem mapGet_set_self {α β : Type} [DecidableEq α] (m : List (α × β))
    (k : α) (v : β) : mapGet (mapSet m k v) k = some v := by
  induction m with
  | nil => simp [mapSet, mapGet]
  | cons p t ih =>
    obtain ⟨a, b⟩ := p
    by_cases hak : a = k
    · subst hak
      simp [mapSet, mapGet]
    · simp [mapSet, hak, mapGet, ih]

theorem mapGet_set_ne {α β : Type} [DecidableEq α] (m : List (α × β))
    (k k' : α) (v : β) (h : k' ≠ k) :
    mapGet (mapSet m k v) k' = mapGet m k' := by
  induction m with
  | nil => simp [mapSet, mapGet, Ne.symm h]
  | cons p t ih =>
    obtain ⟨a, b⟩ := p
    by_cases hak : a = k
    · subst hak
      simp [mapSet, mapGet, Ne.symm h]
    · simp [mapSet, hak, mapGet, ih]

theorem mapGet_del_ne {α β : Type} [DecidableEq α] (m : List (α × β))
    (k k' : α) (h : k' ≠ k) :
    mapGet (mapDel m k) k' = mapGet m k' := by
  induction m with
  | nil => simp [mapDel]
  | cons p t ih =>
    obtain ⟨a, b⟩ := p
    by_cases hak : a = k
    · subst hak
      simp [mapDel, mapGet, Ne.symm h]
    · simp [mapDel, hak, mapGet, ih]

theorem mapGet_eq_none_of_not_mem {α β : Type} [DecidableEq α]
    (m : List (α × β)) (k : α) :
    k ∉ m.map Prod.fst → mapGet m k = none := by
  induction m with
  | nil =>
    intro _
    simp [mapGet]
  | cons p t ih =>
    obtain ⟨a, b⟩ := p
    intro h
    simp only [List.map_cons, List.mem_cons] at h
    push_neg at h
    simp [mapGet, Ne.symm h.1, ih h.2]

theorem mapGet_del_self {α β : Type} [DecidableEq α] (m : List (α × β))
    (k : α) : keysND m → mapGet (mapDel m k) k = none := by
  induction m with
  | nil =>
    intro _
    simp [mapDel, mapGet]
  | cons p t ih =>
    obtain ⟨a, b⟩ := p
    intro h
    simp only [keysND, List.map_cons, List.nodup_cons] at h
    by_cases hak : a = k
    · subst hak
      simp only [mapDel, if_pos rfl]
      exact mapGet_eq_none_of_not_mem t a h.1
    · have ht : keysND t := h.2
      simp [mapDel, hak, mapGet, ih ht]

theorem mem_keys_mapSet {α β : Type} [DecidableEq α] (m : List (α × β))
    (k x : α) (v : β) :
    x ∈ (mapSet m k v).map Prod.fst → x ∈ m.map Prod.fst ∨ x = k := by
  induction m with
  | nil =>
    intro h
    simp only [mapSet, List.map_cons, List.map_nil, List.mem_singleton] at h
    exact Or.inr h
  | cons p t ih =>
    obtain ⟨a, b⟩ := p
    intro h
    simp only [List.map_cons, List.mem_cons]
    by_cases hak : a = k
    · subst hak
      have hms : mapSet ((a, b) :: t) a v = (a, v) :: t := by simp [mapSet]
      rw [hms] at h
      simp only [List.map_cons, List.mem_cons] at h
      tauto
    · simp only [mapSet, if_neg hak, List.map_cons, List.mem_cons] at h
      rcases h with h | h
      · tauto
      · rcases ih h with h2 | h2
        · tauto
        · tauto

theorem mem_keys_mapDel {α β : Type} [DecidableEq α] (m : List (α × β))
    (k x : α) :
    x ∈ (mapDel m k).map Prod.fst → x ∈ m.map Prod.fst := by
  induction m with
  | nil =>
    intro h
    simp [mapDel] at h
  | cons p t ih =>
    obtain ⟨a, b⟩ := p
    intro h
    simp only [List.map_cons, List.mem_cons]
    by_cases hak : a = k
    · subst hak
      simp only [mapDel, if_pos rfl] at h
      tauto
    · simp only [mapDel, if_neg hak, List.map_cons, List.mem_cons] at h
      rcases h with h | h
      · exact Or.inl h
      · exact Or.inr (ih h)

theorem keysND_set {α β : Type} [DecidableEq α] (m : List (α × β))
    (k : α) (v : β) : keysND m → keysND (mapSet m k v) := by
  induction m with
  | nil =>
    intro _
    simp [mapSet, keysND]
  | cons p t ih =>
    obtain ⟨a, b⟩ := p
    intro h
    simp only [keysND, List.map_cons, List.nodup_cons] at h
    by_cases hak : a = k
    · subst hak
      have hms : mapSet ((a, b) :: t) a v = (a, v) :: t := by simp [mapSet]
      rw [hms]
      exact List.nodup_cons.mpr h
    · have ht : keysND t := h.2
      have hset := ih ht
      simp only [mapSet, if_neg hak, keysND, List.map_cons, List.nodup_cons]
      refine ⟨?_, hset⟩
      intro hmem
      rcases mem_keys_mapSet t k a v hmem with hm | hm
      · exact h.1 hm
      · exact hak hm

theorem keysND_del {α β : Type} [DecidableEq α] (m : List (α × β))
    (k : α) : keysND m → keysND (mapDel m k) := by
  induction m with
  | nil =>
    intro _
    simp [mapDel, keysND]
  | cons p t ih =>
    obtain ⟨a, b⟩ := p
    intro h
    simp only [keysND, List.map_cons, List.nodup_cons] at h
    by_cases hak : a = k
    · subst hak
      simp only [mapDel, if_pos rfl]
      exact h.2
    · have ht : keysND t := h.2
      have hdel := ih ht
      simp only [mapDel, if_neg hak, keysND, List.map_cons, List.nodup_cons]
      exact ⟨fun hmem => h.1 (mem_keys_mapDel t k a hmem), hdel⟩

/-! ### Frame and composition lemmas for line processing -/

/-- Every successful branch of `process_line` returns a state that differs
from the input at most in the `transactions` buffer. -/
theorem process_line_frame (pd : String → Option DocumentOperation)
    (st : TriggerState) (line : String) (st2 : TriggerState)
    (out : List TransactionOperation)
    (h : process_line pd st line = .ok (st2, out)) :
    st2.host = st.host ∧ st2.database = st.database ∧ st2.auth = st.auth ∧
      st2.last_log_tick = st.last_log_tick ∧
      st2.subscriptions = st.subscriptions := by
  unfold process_line processDocOp at h
  repeat' split at h
  all_goals try exact Except.noConfusion h
  all_goals simp only [Except.ok.injEq, Prod.mk.injEq] at h
  all_goals obtain ⟨h1, h2⟩ := h
  all_goals subst h1
  all_goals simp

/-- `process_line` only touches the buffer through `mapSet` and `mapDel`,
so distinctness of its keys is preserved. -/
theorem process_line_keysND (pd : String → Option DocumentOperation)
    (st : TriggerState) (line : String) (st2 : TriggerState)
    (out : List TransactionOperation)
    (h : process_line pd st line = .ok (st2, out))
    (hnd : keysND st.transactions) : keysND st2.transactions := by
  unfold process_line processDocOp at h
  repeat' split at h
  all_goals try exact Except.noConfusion h
  all_goals simp only [Except.ok.injEq, Prod.mk.injEq] at h
  all_goals obtain ⟨h1, h2⟩ := h
  all_goals subst h1
  all_goals first
    | exact hnd
    | exact keysND_set _ _ _ hnd
    | exact keysND_del _ _ hnd

/-- The body loop never touches the cursor or the registry. -/
theorem processLines_frame (pd : String → Option DocumentOperation)
    (ls : List String) (st : TriggerState) :
    (processLines pd st ls).1.last_log_tick = st.last_log_tick ∧
      (processLines pd st ls).1.subscriptions = st.subscriptions := by
  induction ls generalizing st with
  | nil => simp [processLines]
  | cons l rest ih =>
    simp only [processLines]
    cases hpl : process_line pd st l with
    | ok p =>
      obtain ⟨st1, o1⟩ := p
      have hf := process_line_frame pd st l st1 o1 hpl
      constructor
      · rw [(ih st1).1, hf.2.2.2.1]
      · rw [(ih st1).2, hf.2.2.2.2]
    | error e => simp

/-- Splitting a body at a successfully processed prefix. -/
theorem processLines_append_ok (pd : String → Option DocumentOperation)
    (xs ys : List String) (st st1 : TriggerState)
    (o1 : List TransactionOperation)
    (h : processLines pd st xs = (st1, o1, none)) :
    processLines pd st (xs ++ ys) =
      ((processLines pd st1 ys).1, o1 ++ (processLines pd st1 ys).2.1,
        (processLines pd st1 ys).2.2) := by
  induction xs generalizing st o1 with
  | nil =>
    simp only [processLines, Prod.mk.injEq] at h
    obtain ⟨rfl, rfl, -⟩ := h
    simp
  | cons l rest ih =>
    simp only [List.cons_append, processLines] at h ⊢
    cases hpl : process_line pd st l with
    | ok p =>
      obtain ⟨sa, oa⟩ := p
      simp only [hpl] at h ⊢
      rcases hr : processLines pd sa rest with ⟨sb, ob, eb⟩
      rw [hr] at h
      simp only [Prod.mk.injEq] at h
      obtain ⟨rfl, rfl, heb⟩ := h
      simp only [List.append_eq]
      rw [ih sa ob (by rw [hr, heb])]
      simp
    | error e =>
      simp only [hpl] at h ⊢
      simp at h

/-- A prefix that fails determines the whole run. -/
theorem processLines_append_err (pd : String → Option DocumentOperation)
    (xs ys : List String) (st st1 : TriggerState)
    (o1 : List TransactionOperation) (e : PError)
    (h : processLines pd st xs = (st1, o1, some e)) :
    processLines pd st (xs ++ ys) = (st1, o1, some e) := by
  induction xs generalizing st o1 with
  | nil => simp [processLines] at h
  | cons l rest ih =>
    simp only [List.cons_append, processLines] at h ⊢
    cases hpl : process_line pd st l with
    | ok p =>
      obtain ⟨sa, oa⟩ := p
      simp only [hpl] at h ⊢
      rcases hr : processLines pd sa rest with ⟨sb, ob, eb⟩
      rw [hr] at h
      simp only [Prod.mk.injEq] at h
      obtain ⟨rfl, rfl, heb⟩ := h
      simp only [List.append_eq]
      rw [ih sa ob (by rw [hr, heb])]
    | error e2 =>
      simp only [hpl] at h ⊢
      exact h

theorem mapDel_mapSet_self {α β : Type} [DecidableEq α] (m : List (α × β))
    (k : α) (v : β) : mapDel (mapSet m k v) k = mapDel m k := by
  induction m with
  | nil => simp [mapSet, mapDel]
  | cons p t ih =>
    obtain ⟨a, b⟩ := p
    by_cases hak : a = k
    · subst hak
      simp [mapSet, mapDel]
    · simp [mapSet, hak, mapDel, ih]

theorem mapSet_mapDel_comm {α β : Type} [DecidableEq α] (m : List (α × β))
    (u t : α) (v : β) (h : u ≠ t) :
    mapDel (mapSet m u v) t = mapSet (mapDel m t) u v := by
  induction m with
  | nil => simp [mapSet, mapDel, h]
  | cons p rest ih =>
    obtain ⟨a, b⟩ := p
    by_cases hau : a = u
    · subst hau
      simp [mapSet, mapDel, h]
    · by_cases hat : a = t
      · subst hat
        simp [mapSet, hau, mapDel, h]
      · simp [mapSet, hau, mapDel, hat, ih]

theorem mapDel_mapDel_comm {α β : Type} [DecidableEq α] (m : List (α × β))
    (u t : α) (h : u ≠ t) :
    mapDel (mapDel m u) t = mapDel (mapDel m t) u := by
  induction m with
  | nil => simp [mapDel]
  | cons p rest ih =>
    obtain ⟨a, b⟩ := p
    by_cases hau : a = u
    · subst hau
      simp [mapDel, h]
    · by_cases hat : a = t
      · subst hat
        simp [mapDel, hau, h]
      · simp [mapDel, hau, hat, ih]

theorem mapDel_of_get_none {α β : Type} [DecidableEq α] (m : List (α × β))
    (k : α) (h : mapGet m k = none) : mapDel m k = m := by
  induction m with
  | nil => simp [mapDel]
  | cons p rest ih =>
    obtain ⟨a, b⟩ := p
    by_cases hak : a = k
    · subst hak
      simp [mapGet] at h
    · simp only [mapGet, if_neg hak] at h
      simp [mapDel, hak, ih h]

theorem mapDel_idem {α β : Type} [DecidableEq α] (m : List (α × β))
    (k : α) (h : keysND m) : mapDel (mapDel m k) k = mapDel m k :=
  mapDel_of_get_none (mapDel m k) k (mapGet_del_self m k h)

/-- Distinct buffer keys are preserved by the whole body loop. -/
theorem processLines_keysND (pd : String → Option DocumentOperation)
    (ls : List String) : ∀ s : TriggerState, keysND s.transactions →
    keysND (processLines pd s ls).1.transactions := by
  induction ls with
  | nil =>
    intro s hnd
    simpa [processLines] using hnd
  | cons l rest ih =>
    intro s hnd
    simp only [processLines]
    cases hpl : process_line pd s l with
    | ok p =>
      obtain ⟨s1, o1⟩ := p
      exact ih s1 (process_line_keysND pd s l s1 o1 hpl hnd)
    | error e => simpa using hnd


/-! ### Claim theorems -/

/-- C10: a `Trigger` built by `new` or `new_auth` starts with the sentinel
cursor `"0"`; `listen` in that state requests
`logger-follow?from=0` (polling from the start of the log) and runs
normally rather than failing — here on an idle response it succeeds. -/
theorem c10_fresh_cursor (h d : String) (a : TriggerAuthentication)
    (pd : String → Option DocumentOperation) :
    (Trigger.new h d).last_log_tick = "0" ∧
    (Trigger.new_auth h d a).last_log_tick = "0" ∧
    Trigger.listen_uri (Trigger.new h d) =
      Trigger.get_uri (Trigger.new h d) "/_api/replication/logger-follow?from=0" ∧
    listen pd (Trigger.new h d) respIdle0 = (Trigger.new h d, [], true, none) := by
  refine ⟨rfl, rfl, ?_, rfl⟩
  have he : "/_api/replication/logger-follow?from=" ++ "0" =
      "/_api/replication/logger-follow?from=0" := rfl
  simp [Trigger.listen_uri, Trigger.new, he]

/-- C4: a log line whose 4-digit type code parses but falls outside the
known code set is processed successfully with no dispatch and an entirely
unchanged state (buffer and cursor included). -/
theorem c4_unknown_code_noop (pd : String → Option DocumentOperation)
    (st : TriggerState) (line : String) (idx code : Nat)
    (h1 : find_idx line "\"type\":" = .ok idx)
    (h2 : parseU16 (get_string_between line idx 4) = some code)
    (h3 : tryFromU16 code = none) :
    process_line pd st line = .ok (st, []) := by
  simp [process_line, h1, h2, h3]

/-- Witness for C4 at the concrete record with code 9999. -/
theorem c4_witness :
    find_idx lineUnknown "\"type\":" = .ok 8 ∧
    parseU16 (get_string_between lineUnknown 8 4) = some 9999 ∧
    tryFromU16 9999 = none ∧
    process_line pdC st0 lineUnknown = .ok (st0, []) :=
  ⟨rfl, rfl, rfl, c4_unknown_code_noop pdC st0 lineUnknown 8 9999 rfl rfl rfl⟩

/-- C7: a document-operation record whose tid is neither `"0"` nor a key of
the buffer is dropped silently: success, no dispatch, state unchanged (the
line's JSON is not even deserialized, so this holds for any `pd`). -/
theorem c7_unknown_tid_dropped (pd : String → Option DocumentOperation)
    (st : TriggerState) (line : String) (idx code : Nat) (lt : LogType)
    (t : String)
    (h1 : find_idx line "\"type\":" = .ok idx)
    (h2 : parseU16 (get_string_between line idx 4) = some code)
    (h3 : tryFromU16 code = some lt)
    (h4 : lt = LogType.InsertOrReplaceDocument ∨ lt = LogType.RemoveDocument)
    (h5 : get_tid line = .ok t)
    (h6 : t ≠ "0")
    (h7 : mapGet st.transactions t = none) :
    process_line pd st line = .ok (st, []) := by
  rcases h4 with rfl | rfl <;>
    simp [process_line, processDocOp, h1, h2, h3, h5, h6, h7]

/-- Witness for C7: insert record for tid `"5"` against an empty buffer. -/
theorem c7_witness :
    find_idx lineIns5 "\"type\":" = .ok 8 ∧
    parseU16 (get_string_between lineIns5 8 4) = some 2300 ∧
    tryFromU16 2300 = some LogType.InsertOrReplaceDocument ∧
    get_tid lineIns5 = .ok "5" ∧
    "5" ≠ "0" ∧
    mapGet st0.transactions "5" = none ∧
    process_line pdC st0 lineIns5 = .ok (st0, []) :=
  ⟨rfl, rfl, rfl, rfl, by decide, rfl,
    c7_unknown_tid_dropped pdC st0 lineIns5 8 2300 LogType.InsertOrReplaceDocument
      "5" rfl rfl rfl (Or.inl rfl) rfl (by decide) rfl⟩

/-- C6: a document-operation record with `tid="0"` is dispatched at the
moment it is parsed — the operation is the sole output of its own line, the
buffer is untouched, and in the body loop the dispatch happens before the
rest of the lines are processed. -/
theorem c6_standalone_immediate (pd : String → Option DocumentOperation)
    (st : TriggerState) (line : String) (rest : List String) (idx code : Nat)
    (lt : LogType) (d : DocumentOperation)
    (h1 : find_idx line "\"type\":" = .ok idx)
    (h2 : parseU16 (get_string_between line idx 4) = some code)
    (h3 : tryFromU16 code = some lt)
    (h4 : lt = LogType.InsertOrReplaceDocument ∨ lt = LogType.RemoveDocument)
    (h5 : get_tid line = .ok "0")
    (h6 : pd line = some d) :
    process_line pd st line =
      .ok (st, [if lt = LogType.RemoveDocument
        then TransactionOperation.RemoveDocument d
        else TransactionOperation.InsertOrReplaceDocument d]) ∧
    processLines pd st (line :: rest) =
      ((processLines pd st rest).1,
        (if lt = LogType.RemoveDocument
          then TransactionOperation.RemoveDocument d
          else TransactionOperation.InsertOrReplaceDocument d) ::
          (processLines pd st rest).2.1,
        (processLines pd st rest).2.2) := by
  have hline : process_line pd st line =
      .ok (st, [if lt = LogType.RemoveDocument
        then TransactionOperation.RemoveDocument d
        else TransactionOperation.InsertOrReplaceDocument d]) := by
    rcases h4 with rfl | rfl <;>
      simp [process_line, processDocOp, create_operation, h1, h2, h3, h5, h6]
  refine ⟨hline, ?_⟩
  simp [processLines, hline]

/-- Witness for C6: standalone insert record. -/
theorem c6_witness :
    find_idx lineIns0 "\"type\":" = .ok 8 ∧
    parseU16 (get_string_between lineIns0 8 4) = some 2300 ∧
    tryFromU16 2300 = some LogType.InsertOrReplaceDocument ∧
    get_tid lineIns0 = .ok "0" ∧
    pdC lineIns0 = some ⟨"c", lineIns0⟩ ∧
    process_line pdC st0 lineIns0 =
      .ok (st0, [TransactionOperation.InsertOrReplaceDocument ⟨"c", lineIns0⟩]) :=
  ⟨rfl, rfl, rfl, rfl, rfl,
    (c6_standalone_immediate pdC st0 lineIns0 [] 8 2300
      LogType.InsertOrReplaceDocument ⟨"c", lineIns0⟩ rfl rfl rfl (Or.inl rfl)
      rfl rfl).1⟩

/-- C1 (amended): processing a `CommitTransaction` record whose tid is in
the buffer dispatches the buffered operations in insertion order, but —
contrary to the claim — the tid is *not* removed: the state is returned
unchanged, so the committed transaction stays in the buffer. -/
theorem c1_commit_dispatch_keeps_tid (pd : String → Option DocumentOperation)
    (st : TriggerState) (line : String) (idx code : Nat) (t : String)
    (tr : Transaction)
    (h1 : find_idx line "\"type\":" = .ok idx)
    (h2 : parseU16 (get_string_between line idx 4) = some code)
    (h3 : tryFromU16 code = some LogType.CommitTransaction)
    (h5 : get_tid line = .ok t)
    (h6 : mapGet st.transactions t = some tr) :
    process_line pd st line = .ok (st, tr.operations) := by
  simp [process_line, h1, h2, h3, h5, h6]

/-- Counterexample to C1 as stated: committing transaction `"5"` (present
in the buffer with one operation) dispatches the operation but leaves the
resulting state equal to the input state, in which `"5"` is still mapped —
the tid is not removed from the buffer. -/
theorem c1_tid_not_removed_cex :
    process_line pdC stB5 lineCommit5 = .ok (stB5, [opA]) ∧
    mapGet stB5.transactions "5" = some ⟨[opA]⟩ :=
  ⟨rfl, rfl⟩

/-- Witness for the amended C1 at the concrete commit record. -/
theorem c1_witness :
    find_idx lineCommit5 "\"type\":" = .ok 8 ∧
    parseU16 (get_string_between lineCommit5 8 4) = some 2201 ∧
    tryFromU16 2201 = some LogType.CommitTransaction ∧
    get_tid lineCommit5 = .ok "5" ∧
    mapGet stB5.transactions "5" = some ⟨[opA]⟩ ∧
    process_line pdC stB5 lineCommit5 =
      .ok (stB5, (⟨[opA]⟩ : Transaction).operations) :=
  ⟨rfl, rfl, rfl, rfl, rfl,
    c1_commit_dispatch_keeps_tid pdC stB5 lineCommit5 8 2201 "5" ⟨[opA]⟩
      rfl rfl rfl rfl rfl⟩

/-- C3 (amended): on status 200/204, a header equal to `"0"` gives the idle
case — sleep 500 ms, success, cursor unchanged, no dispatch; but a header
that is *absent* returns success immediately (cursor unchanged, no
dispatch) without sleeping, contrary to the claim. -/
theorem c3_idle_amended (pd : String → Option DocumentOperation)
    (st : TriggerState) (resp : HttpResponse)
    (hs : resp.status = 200 ∨ resp.status = 204) :
    (resp.lastIncluded = some "0" → listen pd st resp = (st, [], true, none)) ∧
    (resp.lastIncluded = none → listen pd st resp = (st, [], false, none)) := by
  constructor <;> intro hh <;> simp [listen, hs, hh]

/-- Counterexample to C3 as stated: status 200 with the header absent
returns success with the state unchanged and no dispatch, but the 500 ms
sleep did not run. -/
theorem c3_no_sleep_header_absent_cex :
    listen pdC st100 respNoHdr = (st100, [], false, none) := rfl

/-- Witness for the amended C3 on a concrete idle response. -/
theorem c3_witness :
    (respIdle0.status = 200 ∨ respIdle0.status = 204) ∧
    (respIdle0.lastIncluded = some "0" →
      listen pdC st100 respIdle0 = (st100, [], true, none)) ∧
    (respIdle0.lastIncluded = none →
      listen pdC st100 respIdle0 = (st100, [], false, none)) :=
  ⟨Or.inl rfl, (c3_idle_amended pdC st100 respIdle0 (Or.inl rfl)).1,
    (c3_idle_amended pdC st100 respIdle0 (Or.inl rfl)).2⟩

/-- C2 (amended): when `listen` fails, either the failure is a non-success
HTTP status and the whole state — cursor included — is unchanged with
nothing dispatched, or the failure arose while processing the body, in
which case the cursor has *already* been advanced to the header tick
(`self.last_log_tick` is assigned before the body is parsed), contrary to
the claim that a body parse error leaves the cursor at its old value. -/
theorem c2_cursor_error_amended (pd : String → Option DocumentOperation)
    (st : TriggerState) (resp : HttpResponse) (st2 : TriggerState)
    (out : List TransactionOperation) (slept : Bool) (e : PError)
    (h : listen pd st resp = (st2, out, slept, some e)) :
    (¬(resp.status = 200 ∨ resp.status = 204) ∧ st2 = st ∧ out = []) ∨
    (∃ v, resp.lastIncluded = some v ∧ v ≠ "0" ∧ v ≠ st.last_log_tick ∧
      st2.last_log_tick = v) := by
  by_cases hs : resp.status = 200 ∨ resp.status = 204
  · right
    cases hv : resp.lastIncluded with
    | none => simp [listen, hs, hv] at h
    | some v =>
      by_cases h0 : v = "0"
      · subst h0
        simp [listen, hs, hv] at h
      · by_cases hc : v = st.last_log_tick
        · subst hc
          simp [listen, hs, hv, h0] at h
        · have hl : listen pd st resp =
              ((processLines pd { st with last_log_tick := v } resp.body).1,
                (processLines pd { st with last_log_tick := v } resp.body).2.1,
                false,
                (processLines pd { st with last_log_tick := v } resp.body).2.2) := by
            simp [listen, hs, hv, h0, hc]
          rw [hl] at h
          have h1 : (processLines pd { st with last_log_tick := v } resp.body).1
              = st2 := congrArg Prod.fst h
          refine ⟨v, rfl, h0, hc, ?_⟩
          rw [← h1]
          exact (processLines_frame pd resp.body _).1
  · left
    simp only [listen, if_neg hs, Prod.mk.injEq] at h
    exact ⟨hs, h.1.symm, h.2.1.symm⟩

/-- Counterexample to C2 as stated: a body whose single record fails to
parse makes `listen` return an error, yet the cursor has moved from
`"100"` to the header tick `"200"`. -/
theorem c2_cursor_advanced_on_parse_error_cex :
    (listen pdC st100 respBad).2.2.2 = some PError.serialize ∧
    (listen pdC st100 respBad).1.last_log_tick = "200" ∧
    st100.last_log_tick = "100" :=
  ⟨rfl, rfl, rfl⟩

/-- Witness for the amended C2 on a concrete failing (HTTP 500) call. -/
theorem c2_witness :
    listen pdC st100 resp500 = (st100, [], false, some (PError.api 500)) ∧
    ((¬(resp500.status = 200 ∨ resp500.status = 204) ∧ st100 = st100 ∧
        ([] : List TransactionOperation) = []) ∨
      (∃ v, resp500.lastIncluded = some v ∧ v ≠ "0" ∧
        v ≠ st100.last_log_tick ∧ st100.last_log_tick = v)) :=
  ⟨rfl, c2_cursor_error_amended pdC st100 resp500 st100 [] false
    (PError.api 500) rfl⟩

/-- C9: the concatenation of the outputs of consecutive body-processing
cycles run against one trigger instance (whose transaction buffer and state
persist between cycles) equals the output of processing the merged record
stream in a single cycle; this holds unconditionally — in particular under
the claim's proviso that every observed transaction is committed or aborted
within the window. -/
theorem c9_cycles_concat (pd : String → Option DocumentOperation)
    (st : TriggerState) (bodies : List (List String)) :
    runCycles pd st bodies = processLines pd st bodies.flatten := by
  induction bodies generalizing st with
  | nil => simp [runCycles, processLines]
  | cons b bs ih =>
    rcases hr : processLines pd st b with ⟨s1, o1, e1⟩
    cases e1 with
    | none =>
      have happ := processLines_append_ok pd b bs.flatten st s1 o1 hr
      simp only [runCycles, hr, List.flatten_cons, happ, ih s1]
    | some e =>
      have happ := processLines_append_err pd b bs.flatten st s1 o1 e hr
      simp [runCycles, hr, List.flatten_cons, happ]


/-! ### Dispatch order (C8) -/

theorem getL_insert (m : SubscriptionMap) (ev ev' : HandlerEvent)
    (s : Subscription) :
    getL (m.insert ev s) ev' =
      if ev' = ev then getL m ev' ++ [s] else getL m ev' := by
  unfold SubscriptionMap.insert getL
  cases hg : mapGet m ev with
  | some v =>
    by_cases he : ev' = ev
    · subst he
      rw [mapGet_set_self, hg]
      simp
    · rw [mapGet_set_ne _ _ _ _ he]
      simp [he]
  | none =>
    by_cases he : ev' = ev
    · subst he
      rw [mapGet_set_self, hg]
      simp
    · rw [mapGet_set_ne _ _ _ _ he]
      simp [he]

theorem gGet_applyReg (mgr : SubscriptionManager) (r : Reg)
    (ev : HandlerEvent) :
    gGet (applyReg mgr r) ev = gGet mgr ev ++ (globalMatch ev r).toList := by
  cases r with
  | rglobal e s =>
    show gGet (mgr.insert e s) ev = _
    unfold SubscriptionManager.insert gGet globalMatch
    by_cases he : e = ev
    · subst he
      simp [getL_insert]
    · simp [getL_insert, he, Ne.symm he]
  | rscoped e c s =>
    show gGet (mgr.insert_to e c s) ev = _
    unfold SubscriptionManager.insert_to gGet globalMatch
    cases hg : mapGet mgr.collection_subscriptions c <;> simp

theorem cGet_applyReg (mgr : SubscriptionManager) (r : Reg) (col : String)
    (ev : HandlerEvent) :
    cGet (applyReg mgr r) col ev =
      cGet mgr col ev ++ (scopedMatch ev col r).toList := by
  cases r with
  | rglobal e s =>
    show cGet (mgr.insert e s) col ev = _
    unfold SubscriptionManager.insert cGet scopedMatch
    simp
  | rscoped e c s =>
    show cGet (mgr.insert_to e c s) col ev = _
    unfold SubscriptionManager.insert_to cGet scopedMatch
    by_cases hcc : c = col
    · subst hcc
      cases hg : mapGet mgr.collection_subscriptions c with
      | some subs =>
        simp only [hg, mapGet_set_self, getL_insert]
        by_cases hee : ev = e
        · subst hee
          simp
        · have hee2 : ¬ e = ev := fun hh => hee hh.symm
          simp [hee, hee2]
      | none =>
        simp only [hg, mapGet_set_self, getL_insert]
        by_cases hee : ev = e
        · subst hee
          simp [getL, SubscriptionMap.empty, mapGet]
        · have hee2 : ¬ e = ev := fun hh => hee hh.symm
          simp [hee, hee2, getL, SubscriptionMap.empty, mapGet]
    · have hcc2 : ¬ col = c := fun hh => hcc hh.symm
      cases hg : mapGet mgr.collection_subscriptions c with
      | some subs =>
        simp only [hg]
        simp [mapGet_set_ne _ _ _ _ hcc2, hcc]
      | none =>
        simp only [hg]
        simp [mapGet_set_ne _ _ _ _ hcc2, hcc]

theorem gGet_applyRegs_aux (ev : HandlerEvent) (regs : List Reg) :
    ∀ mgr : SubscriptionManager,
    gGet (regs.foldl applyReg mgr) ev =
      gGet mgr ev ++ regs.filterMap (globalMatch ev) := by
  induction regs with
  | nil =>
    intro mgr
    simp
  | cons r rs ih =>
    intro mgr
    simp only [List.foldl_cons, List.filterMap_cons]
    rw [ih (applyReg mgr r), gGet_applyReg]
    cases hgm : globalMatch ev r <;> simp [hgm]

theorem cGet_applyRegs_aux (ev : HandlerEvent) (col : String)
    (regs : List Reg) : ∀ mgr : SubscriptionManager,
    cGet (regs.foldl applyReg mgr) col ev =
      cGet mgr col ev ++ regs.filterMap (scopedMatch ev col) := by
  induction regs with
  | nil =>
    intro mgr
    simp
  | cons r rs ih =>
    intro mgr
    simp only [List.foldl_cons, List.filterMap_cons]
    rw [ih (applyReg mgr r), cGet_applyReg]
    cases hgm : scopedMatch ev col r <;> simp [hgm]

theorem dispatchEvent_eq_invoked (ev : HandlerEvent) (m : SubscriptionMap) :
    dispatchEvent ev m = invoked (getL m ev) := by
  unfold dispatchEvent SubscriptionMap.get getL invoked
  cases mapGet m ev <;> simp

theorem call_eq_invoked (mgr : SubscriptionManager) (ev : HandlerEvent)
    (col : String) :
    SubscriptionManager.call mgr ev (some col) =
      invoked (gGet mgr ev) ++ invoked (cGet mgr col ev) := by
  unfold SubscriptionManager.call cGet gGet
  rw [dispatchEvent_eq_invoked]
  cases hg : mapGet mgr.collection_subscriptions col with
  | some m => simp [dispatchEvent_eq_invoked, hg, invoked]
  | none => simp [hg, invoked]

/-- C8: for any sequence of registrations, one dispatch through
`SubscriptionManager::call` invokes handlers in a single total order: first
every matching global subscription in registration order, then every
subscription registered for the operation's collection (and matching event
kind) in registration order.  The source's dispatch loop awaits each
handler before starting the next, so this list order is the execution
order. -/
theorem c8_dispatch_order (regs : List Reg) (ev : HandlerEvent)
    (col : String) :
    SubscriptionManager.call (applyRegs regs) ev (some col) =
      invoked (regs.filterMap (globalMatch ev)) ++
        invoked (regs.filterMap (scopedMatch ev col)) := by
  rw [call_eq_invoked]
  unfold applyRegs
  rw [gGet_applyRegs_aux ev regs SubscriptionManager.new,
    cGet_applyRegs_aux ev col regs SubscriptionManager.new]
  simp [gGet, cGet, SubscriptionManager.new, getL, SubscriptionMap.empty,
    mapGet]


/-! ### Denotation of `process_line` by record kind (for C5) -/

theorem lineType_elim (l : String) (lt : LogType) (h : lineType l = some lt) :
    ∃ idx code, find_idx l "\"type\":" = .ok idx ∧
      parseU16 (get_string_between l idx 4) = some code ∧
      tryFromU16 code = some lt := by
  unfold lineType at h
  cases hfi : find_idx l "\"type\":" with
  | error e =>
    simp only [hfi] at h
    exact Option.noConfusion h
  | ok idx =>
    simp only [hfi] at h
    cases hp : parseU16 (get_string_between l idx 4) with
    | none =>
      simp only [hp] at h
      simp at h
    | some code =>
      simp only [hp, Option.some_bind] at h
      exact ⟨idx, code, rfl, hp, h⟩

theorem pl_start (pd : String → Option DocumentOperation) (σ : TriggerState)
    (l u : String) (hlt : lineType l = some LogType.StartTransaction)
    (hgt : get_tid l = .ok u) :
    process_line pd σ l =
      .ok ({ σ with transactions := mapSet σ.transactions u Transaction.empty },
        []) := by
  obtain ⟨idx, code, hfi, hp, htf⟩ := lineType_elim l _ hlt
  simp only [process_line, hfi, hp, htf, hgt]

theorem pl_docop (pd : String → Option DocumentOperation) (σ : TriggerState)
    (l : String) (lt : LogType) (hlt : lineType l = some lt)
    (hk : lt = LogType.RemoveDocument ∨ lt = LogType.InsertOrReplaceDocument) :
    process_line pd σ l = processDocOp pd σ l lt := by
  obtain ⟨idx, code, hfi, hp, htf⟩ := lineType_elim l _ hlt
  rcases hk with rfl | rfl <;> simp only [process_line, hfi, hp, htf]

theorem pl_commit (pd : String → Option DocumentOperation) (σ : TriggerState)
    (l u : String) (hlt : lineType l = some LogType.CommitTransaction)
    (hgt : get_tid l = .ok u) :
    process_line pd σ l =
      (match mapGet σ.transactions u with
        | some tr => .ok (σ, tr.operations)
        | none => .ok (σ, [])) := by
  obtain ⟨idx, code, hfi, hp, htf⟩ := lineType_elim l _ hlt
  simp only [process_line, hfi, hp, htf, hgt]

theorem pl_abort (pd : String → Option DocumentOperation) (σ : TriggerState)
    (l u : String) (hlt : lineType l = some LogType.AbortTransaction)
    (hgt : get_tid l = .ok u) :
    process_line pd σ l =
      .ok ({ σ with transactions := mapDel σ.transactions u }, []) := by
  obtain ⟨idx, code, hfi, hp, htf⟩ := lineType_elim l _ hlt
  simp only [process_line, hfi, hp, htf, hgt]

theorem pl_trivial (pd : String → Option DocumentOperation) (σ : TriggerState)
    (l : String) (lt : LogType) (hlt : lineType l = some lt)
    (htk : tidKind lt = false) :
    process_line pd σ l = .ok (σ, []) := by
  obtain ⟨idx, code, hfi, hp, htf⟩ := lineType_elim l _ hlt
  simp only [process_line, hfi, hp, htf]
  revert htk
  unfold tidKind
  cases lt <;> simp

theorem pl_tid_err (pd : String → Option DocumentOperation) (σ : TriggerState)
    (l : String) (lt : LogType) (e : PError) (hlt : lineType l = some lt)
    (htk : tidKind lt = true) (hgt : get_tid l = .error e) :
    process_line pd σ l = .error e := by
  obtain ⟨idx, code, hfi, hp, htf⟩ := lineType_elim l _ hlt
  simp only [process_line, hfi, hp, htf]
  revert htk
  unfold tidKind
  cases lt <;> simp [processDocOp, hgt]

theorem pl_lineType_none (pd : String → Option DocumentOperation)
    (l : String) (hlt : lineType l = none) (σ σ2 : TriggerState)
    (out : List TransactionOperation)
    (h : process_line pd σ l = .ok (σ2, out)) :
    σ2 = σ ∧ out = [] ∧
      ∀ σ3 : TriggerState, process_line pd σ3 l = .ok (σ3, []) := by
  unfold lineType at hlt
  unfold process_line at h
  cases hfi : find_idx l "\"type\":" with
  | error e =>
    simp only [hfi] at h
    exact Except.noConfusion h
  | ok idx =>
    simp only [hfi] at h hlt
    cases hp : parseU16 (get_string_between l idx 4) with
    | none =>
      simp only [hp] at h
      exact Except.noConfusion h
    | some code =>
      simp only [hp, Option.some_bind] at h hlt
      simp only [hlt, Except.ok.injEq, Prod.mk.injEq] at h
      refine ⟨h.1.symm, h.2.symm, ?_⟩
      intro σ3
      simp only [process_line, hfi, hp, hlt]

/-! ### Classifier computation lemmas (for C5) -/

theorem recordFor_of_none (t l : String) (hlt : lineType l = none) :
    recordFor t l = false := by
  unfold recordFor
  rw [hlt]

theorem recordFor_eq (t l u : String) (lt : LogType)
    (hlt : lineType l = some lt) (hgt : get_tid l = .ok u) :
    recordFor t l = (tidKind lt && (u == t)) := by
  unfold recordFor tidKind
  simp only [hlt, hgt]
  cases lt <;> simp

theorem recordFor_of_trivial (t l : String) (lt : LogType)
    (hlt : lineType l = some lt) (htk : tidKind lt = false) :
    recordFor t l = false := by
  unfold recordFor
  rw [hlt]
  cases hgt : get_tid l with
  | error e => rfl
  | ok u =>
    revert htk
    unfold tidKind
    cases lt <;> simp

theorem commitsFor_compute (l t u : String)
    (hlt : lineType l = some LogType.CommitTransaction)
    (hgt : get_tid l = .ok u) : commitsFor l t = (u == t) := by
  unfold commitsFor
  simp only [hlt, hgt]

theorem abortsFor_elim (la t : String) (h : abortsFor la t = true) :
    lineType la = some LogType.AbortTransaction ∧ get_tid la = .ok t := by
  unfold abortsFor at h
  split at h
  · rename_i u heq1 heq2
    have hu : u = t := by simpa using h
    subst hu
    exact ⟨heq1, heq2⟩
  · exact Bool.noConfusion h


theorem tidKind_elim (lt : LogType) (h : tidKind lt = true) :
    lt = LogType.StartTransaction ∨ lt = LogType.InsertOrReplaceDocument ∨
      lt = LogType.RemoveDocument ∨ lt = LogType.CommitTransaction ∨
      lt = LogType.AbortTransaction := by
  cases lt <;> simp_all [tidKind]

/-- One line of the C5 simulation: under distinct buffer keys, a line that
is not a commit record for `t` either belongs to transaction `t` (then it
produces no dispatch and does not change the buffer outside `t`), or it
processes identically from the state with `t` dropped. -/
theorem c5step (pd : String → Option DocumentOperation) (t : String)
    (ht : t ≠ "0") (l : String) (s s2 : TriggerState)
    (out : List TransactionOperation)
    (hnd : keysND s.transactions)
    (hnc : commitsFor l t = false)
    (h : process_line pd s l = .ok (s2, out)) :
    (recordFor t l = true → out = [] ∧ delT t s2 = delT t s) ∧
    (recordFor t l = false →
      process_line pd (delT t s) l = .ok (delT t s2, out)) := by
  cases hlt : lineType l with
  | none =>
    obtain ⟨hs2, hout, hall⟩ := pl_lineType_none pd l hlt s s2 out h
    have hrf := recordFor_of_none t l hlt
    refine ⟨fun habs => absurd habs (by simp [hrf]), fun _ => ?_⟩
    rw [hs2, hout]
    exact hall (delT t s)
  | some lt =>
    cases htk : tidKind lt with
    | false =>
      have hrf := recordFor_of_trivial t l lt hlt htk
      have hden := pl_trivial pd s l lt hlt htk
      rw [hden] at h
      simp only [Except.ok.injEq, Prod.mk.injEq] at h
      obtain ⟨hs2, hout⟩ := h
      refine ⟨fun habs => absurd habs (by simp [hrf]), fun _ => ?_⟩
      rw [← hs2, ← hout]
      exact pl_trivial pd (delT t s) l lt hlt htk
    | true =>
      cases hgt : get_tid l with
      | error e =>
        rw [pl_tid_err pd s l lt e hlt htk hgt] at h
        exact Except.noConfusion h
      | ok u =>
        have hrf := recordFor_eq t l u lt hlt hgt
        rw [htk, Bool.true_and] at hrf
        by_cases hut : u = t
        · rw [hut] at hgt
          have hrft : recordFor t l = true := by
            rw [hrf, hut]
            simp
          refine ⟨fun _ => ?_, fun habs => absurd habs (by simp [hrft])⟩
          rcases tidKind_elim lt htk with rfl | rfl | rfl | rfl | rfl
          · rw [pl_start pd s l t hlt hgt] at h
            simp only [Except.ok.injEq, Prod.mk.injEq] at h
            obtain ⟨hs2, hout⟩ := h
            subst hs2
            rw [← hout]
            exact ⟨rfl, by simp [delT, mapDel_mapSet_self]⟩
          · rw [pl_docop pd s l _ hlt (Or.inr rfl)] at h
            unfold processDocOp at h
            simp only [hgt] at h
            rw [if_neg ht] at h
            cases hmg : mapGet s.transactions t with
            | some tr =>
              simp only [hmg] at h
              cases hco : create_operation pd l LogType.InsertOrReplaceDocument with
              | error e2 =>
                simp only [hco] at h
                exact Except.noConfusion h
              | ok op =>
                simp only [hco] at h
                simp only [Except.ok.injEq, Prod.mk.injEq] at h
                obtain ⟨hs2, hout⟩ := h
                subst hs2
                rw [← hout]
                exact ⟨rfl, by simp [delT, mapDel_mapSet_self]⟩
            | none =>
              simp only [hmg] at h
              simp only [Except.ok.injEq, Prod.mk.injEq] at h
              obtain ⟨hs2, hout⟩ := h
              rw [← hs2, ← hout]
              exact ⟨rfl, rfl⟩
          · rw [pl_docop pd s l _ hlt (Or.inl rfl)] at h
            unfold processDocOp at h
            simp only [hgt] at h
            rw [if_neg ht] at h
            cases hmg : mapGet s.transactions t with
            | some tr =>
              simp only [hmg] at h
              cases hco : create_operation pd l LogType.RemoveDocument with
              | error e2 =>
                simp only [hco] at h
                exact Except.noConfusion h
              | ok op =>
                simp only [hco] at h
                simp only [Except.ok.injEq, Prod.mk.injEq] at h
                obtain ⟨hs2, hout⟩ := h
                subst hs2
                rw [← hout]
                exact ⟨rfl, by simp [delT, mapDel_mapSet_self]⟩
            | none =>
              simp only [hmg] at h
              simp only [Except.ok.injEq, Prod.mk.injEq] at h
              obtain ⟨hs2, hout⟩ := h
              rw [← hs2, ← hout]
              exact ⟨rfl, rfl⟩
          · have hcc := commitsFor_compute l t t hlt hgt
            rw [hnc] at hcc
            simp at hcc
          · rw [pl_abort pd s l t hlt hgt] at h
            simp only [Except.ok.injEq, Prod.mk.injEq] at h
            obtain ⟨hs2, hout⟩ := h
            subst hs2
            rw [← hout]
            exact ⟨rfl, by simp [delT, mapDel_idem s.transactions t hnd]⟩
        · have hrff : recordFor t l = false := by
            rw [hrf]
            simp [hut]
          refine ⟨fun habs => absurd habs (by simp [hrff]), fun _ => ?_⟩
          rcases tidKind_elim lt htk with rfl | rfl | rfl | rfl | rfl
          · rw [pl_start pd s l u hlt hgt] at h
            rw [pl_start pd (delT t s) l u hlt hgt]
            simp only [Except.ok.injEq, Prod.mk.injEq] at h
            obtain ⟨hs2, hout⟩ := h
            subst hs2
            rw [← hout]
            simp [delT, mapSet_mapDel_comm s.transactions u t Transaction.empty hut]
          · rw [pl_docop pd s l _ hlt (Or.inr rfl)] at h
            rw [pl_docop pd (delT t s) l _ hlt (Or.inr rfl)]
            unfold processDocOp at h ⊢
            simp only [hgt] at h ⊢
            by_cases hu0 : u = "0"
            · rw [if_pos hu0] at h ⊢
              cases hco : create_operation pd l LogType.InsertOrReplaceDocument with
              | error e2 =>
                simp only [hco] at h
                exact Except.noConfusion h
              | ok op =>
                simp only [hco] at h ⊢
                simp only [Except.ok.injEq, Prod.mk.injEq] at h
                obtain ⟨hs2, hout⟩ := h
                rw [← hs2, ← hout]
            · rw [if_neg hu0] at h ⊢
              have hmg2 : mapGet (delT t s).transactions u =
                  mapGet s.transactions u := by
                simp [delT, mapGet_del_ne s.transactions t u hut]
              rw [hmg2]
              cases hmg : mapGet s.transactions u with
              | some tr =>
                simp only [hmg] at h ⊢
                cases hco : create_operation pd l LogType.InsertOrReplaceDocument with
                | error e2 =>
                  simp only [hco] at h
                  exact Except.noConfusion h
                | ok op =>
                  simp only [hco] at h ⊢
                  simp only [Except.ok.injEq, Prod.mk.injEq] at h
                  obtain ⟨hs2, hout⟩ := h
                  subst hs2
                  rw [← hout]
                  simp [delT,
                    mapSet_mapDel_comm s.transactions u t ⟨tr.operations ++ [op]⟩ hut]
              | none =>
                simp only [hmg] at h ⊢
                simp only [Except.ok.injEq, Prod.mk.injEq] at h
                obtain ⟨hs2, hout⟩ := h
                rw [← hs2, ← hout]
          · rw [pl_docop pd s l _ hlt (Or.inl rfl)] at h
            rw [pl_docop pd (delT t s) l _ hlt (Or.inl rfl)]
            unfold processDocOp at h ⊢
            simp only [hgt] at h ⊢
            by_cases hu0 : u = "0"
            · rw [if_pos hu0] at h ⊢
              cases hco : create_operation pd l LogType.RemoveDocument with
              | error e2 =>
                simp only [hco] at h
                exact Except.noConfusion h
              | ok op =>
                simp only [hco] at h ⊢
                simp only [Except.ok.injEq, Prod.mk.injEq] at h
                obtain ⟨hs2, hout⟩ := h
                rw [← hs2, ← hout]
            · rw [if_neg hu0] at h ⊢
              have hmg2 : mapGet (delT t s).transactions u =
                  mapGet s.transactions u := by
                simp [delT, mapGet_del_ne s.transactions t u hut]
              rw [hmg2]
              cases hmg : mapGet s.transactions u with
              | some tr =>
                simp only [hmg] at h ⊢
                cases hco : create_operation pd l LogType.RemoveDocument with
                | error e2 =>
                  simp only [hco] at h
                  exact Except.noConfusion h
                | ok op =>
                  simp only [hco] at h ⊢
                  simp only [Except.ok.injEq, Prod.mk.injEq] at h
                  obtain ⟨hs2, hout⟩ := h
                  subst hs2
                  rw [← hout]
                  simp [delT,
                    mapSet_mapDel_comm s.transactions u t ⟨tr.operations ++ [op]⟩ hut]
              | none =>
                simp only [hmg] at h ⊢
                simp only [Except.ok.injEq, Prod.mk.injEq] at h
                obtain ⟨hs2, hout⟩ := h
                rw [← hs2, ← hout]
          · rw [pl_commit pd s l u hlt hgt] at h
            rw [pl_commit pd (delT t s) l u hlt hgt]
            have hmg2 : mapGet (delT t s).transactions u =
                mapGet s.transactions u := by
              simp [delT, mapGet_del_ne s.transactions t u hut]
            rw [hmg2]
            cases hmg : mapGet s.transactions u with
            | some tr =>
              simp only [hmg] at h ⊢
              simp only [Except.ok.injEq, Prod.mk.injEq] at h
              obtain ⟨hs2, hout⟩ := h
              rw [← hs2, ← hout]
            | none =>
              simp only [hmg] at h ⊢
              simp only [Except.ok.injEq, Prod.mk.injEq] at h
              obtain ⟨hs2, hout⟩ := h
              rw [← hs2, ← hout]
          · rw [pl_abort pd s l u hlt hgt] at h
            rw [pl_abort pd (delT t s) l u hlt hgt]
            simp only [Except.ok.injEq, Prod.mk.injEq] at h
            obtain ⟨hs2, hout⟩ := h
            subst hs2
            rw [← hout]
            simp [delT, mapDel_mapDel_comm s.transactions u t hut]


/-- The C5 simulation lifted to a list of lines containing no commit record
for `t`: dropping every record of transaction `t` from the input and
dropping `t` from the initial buffer leaves the dispatched output unchanged
and drops `t` from the final buffer. -/
theorem c5run (pd : String → Option DocumentOperation) (t : String)
    (ht : t ≠ "0") (pre : List String) :
    ∀ (s s1 : TriggerState) (o1 : List TransactionOperation),
    keysND s.transactions → (∀ l ∈ pre, commitsFor l t = false) →
    processLines pd s pre = (s1, o1, none) →
    processLines pd (delT t s) (pre.filter (fun l => !(recordFor t l))) =
      (delT t s1, o1, none) := by
  induction pre with
  | nil =>
    intro s s1 o1 _ _ h
    simp only [processLines, Prod.mk.injEq] at h
    obtain ⟨h1, h2, -⟩ := h
    rw [← h1, ← h2]
    simp [processLines]
  | cons l rest ih =>
    intro s s1 o1 hnd hnc h
    simp only [processLines] at h
    cases hpl : process_line pd s l with
    | error e =>
      simp [hpl] at h
    | ok p =>
      obtain ⟨sa, oa⟩ := p
      simp only [hpl] at h
      rcases hr : processLines pd sa rest with ⟨sb, ob, eb⟩
      rw [hr] at h
      simp only [Prod.mk.injEq] at h
      obtain ⟨h1, h2, h3⟩ := h
      have hnda := process_line_keysND pd s l sa oa hpl hnd
      have hstep := c5step pd t ht l s sa oa hnd
        (hnc l (List.mem_cons_self l rest)) hpl
      have hih := ih sa s1 ob hnda
        (fun x hx => hnc x (List.mem_cons_of_mem l hx)) (by rw [hr, h1, h3])
      by_cases hrf : recordFor t l = true
      · obtain ⟨hout, hdel⟩ := hstep.1 hrf
        have hfilter : (l :: rest).filter (fun x => !(recordFor t x)) =
            rest.filter (fun x => !(recordFor t x)) := by
          simp [List.filter_cons, hrf]
        rw [hfilter]
        rw [hdel] at hih
        rw [hih]
        rw [← h2, hout]
        simp
      · have hrf2 : recordFor t l = false := by
          revert hrf
          cases recordFor t l <;> simp
        have hfl := hstep.2 hrf2
        have hfilter : (l :: rest).filter (fun x => !(recordFor t x)) =
            l :: rest.filter (fun x => !(recordFor t x)) := by
          simp [List.filter_cons, hrf2]
        rw [hfilter]
        simp only [processLines, hfl]
        rw [hih, ← h2]

/-- C5: a transaction `t` that receives an `AbortTransaction` record with no
preceding `CommitTransaction` record is removed from the buffer, and none of
the operations buffered for it ever produce a dispatch: the output of the
whole run equals the output of a run that never saw any record of
transaction `t` — in particular the operations buffered for `t` are never
handed to `execute_operation`, so they produce no handler call. -/
theorem c5_abort_purity (pd : String → Option DocumentOperation)
    (t : String) (st : TriggerState) (pre post : List String) (la : String)
    (ht : t ≠ "0") (hnd : keysND st.transactions)
    (h0 : mapGet st.transactions t = none)
    (hnc : ∀ l ∈ pre, commitsFor l t = false)
    (hla : abortsFor la t = true)
    (hok : (processLines pd st pre).2.2 = none) :
    mapGet (processLines pd st (pre ++ [la])).1.transactions t = none ∧
    (processLines pd st (pre ++ la :: post)).2.1 =
      (processLines pd st
        (pre.filter (fun l => !(recordFor t l)) ++ post)).2.1 := by
  rcases hpre : processLines pd st pre with ⟨s1, o1, e1⟩
  have he1 : e1 = none := by
    rw [hpre] at hok
    exact hok
  subst he1
  obtain ⟨hlt, hgt⟩ := abortsFor_elim la t hla
  have habort : ∀ σ : TriggerState, process_line pd σ la = .ok (delT t σ, []) :=
    fun σ => pl_abort pd σ la t hlt hgt
  have hnd1 : keysND s1.transactions := by
    have hk := processLines_keysND pd pre st hnd
    rw [hpre] at hk
    exact hk
  have hfil := c5run pd t ht pre st s1 o1 hnd hnc hpre
  have hds : delT t st = st := by
    unfold delT
    rw [mapDel_of_get_none st.transactions t h0]
  rw [hds] at hfil
  constructor
  · rw [processLines_append_ok pd pre [la] st s1 o1 hpre]
    simp only [processLines, habort s1]
    simp only [delT]
    exact mapGet_del_self s1.transactions t hnd1
  · rw [processLines_append_ok pd pre (la :: post) st s1 o1 hpre]
    rw [processLines_append_ok pd
      (pre.filter (fun l => !(recordFor t l))) post st (delT t s1) o1 hfil]
    simp only [processLines, habort s1]
    simp

/-- Witness for C5: transaction `"5"` is started, receives one insert, and
is aborted; a later commit for `"5"` finds nothing, so the buffered insert
never dispatches. -/
theorem c5_witness :
    ("5" : String) ≠ "0" ∧
    keysND st0.transactions ∧
    mapGet st0.transactions "5" = none ∧
    (∀ l ∈ [lineStart5, lineIns5], commitsFor l "5" = false) ∧
    abortsFor lineAbort5 "5" = true ∧
    (processLines pdC st0 [lineStart5, lineIns5]).2.2 = none ∧
    (mapGet (processLines pdC st0
        ([lineStart5, lineIns5] ++ [lineAbort5])).1.transactions "5" = none ∧
      (processLines pdC st0
          ([lineStart5, lineIns5] ++ lineAbort5 :: [lineCommit5])).2.1 =
        (processLines pdC st0
          (([lineStart5, lineIns5].filter (fun l => !(recordFor "5" l))) ++
            [lineCommit5])).2.1) :=
  ⟨by decide, by simp [keysND, st0, Trigger.new], rfl, by decide, by decide, rfl,
    c5_abort_purity pdC "5" st0 [lineStart5, lineIns5] [lineCommit5]
      lineAbort5 (by decide) (by simp [keysND, st0, Trigger.new]) rfl
      (by decide) (by decide) rfl⟩

end AE
